import Mathlib

/-!
Verification of the rate cache and update pipeline of the ValutaTrade Hub
repository (`valutatrade_hub/parser_service/` and `valutatrade_hub/core/utils.py`).

Strings of the Python program are modelled as `List Char` (`Str`), Python
dicts as insertion-ordered association lists with dict-assignment semantics
(`dictInsert` / `dictUpdate`), Python floats as `Rat`, raised exceptions as
`Except PyError`, and the two on-disk JSON files as a `StorageState` record.
The atomic temp-file-then-`os.replace` discipline of `storage.py` is modelled
by the canonical file content changing only on a successful write: an injected
I/O failure leaves the state unchanged, which is exactly what "write the temp
file, then atomically replace" guarantees for the canonical path.
-/

set_option maxHeartbeats 1000000

/-- Strings of the embedded program: Python `str` as a list of characters. -/
abbrev Str := List Char

/-- Python `s.split('_')` for a single-character separator: splits on every
occurrence of `'_'`, keeping empty parts, never returning an empty list
(`"".split('_') == ['']`).  Translates the `pair.split('_')` calls in
`storage.py` and `updater.py`. -/
def pySplitU : Str → List Str
  | [] => [[]]
  | c :: rest =>
    if c = '_' then [] :: pySplitU rest
    else
      match pySplitU rest with
      | p :: ps => (c :: p) :: ps
      | [] => [[c]]

/-- Python `timestamp.replace(':', '-').replace('.', '-')` from
`RatesStorage.create_historical_record` (`storage.py` line 69); the two
sequential single-character replacements amount to one character map. -/
def sanitizeTs (s : Str) : Str :=
  s.map (fun c => if c = ':' ∨ c = '.' then '-' else c)

/-- Python `updated_at.replace('Z', '+00:00')` from `is_rate_fresh`
(`core/utils.py` line 35): every occurrence of `'Z'` is replaced by the
explicit UTC offset. -/
def pyReplaceZ : Str → Str
  | [] => []
  | c :: rest =>
    if c = 'Z' then '+' :: '0' :: '0' :: ':' :: '0' :: '0' :: pyReplaceZ rest
    else c :: pyReplaceZ rest

/-- First-match lookup in an insertion-ordered association list, i.e. Python
`d[k]` / `d.get(k)` on a dict whose keys are unique by construction. -/
def lookupD {α : Type} : List (Str × α) → Str → Option α
  | [], _ => none
  | (k', v) :: rest, k => if k' = k then some v else lookupD rest k

/-- Python dict assignment `d[k] = v`: if the key is present its value is
replaced in place (insertion order kept), otherwise the pair is appended. -/
def dictInsert {α : Type} (d : List (Str × α)) (k : Str) (v : α) : List (Str × α) :=
  if d.any (fun p => p.1 = k) then d.map (fun p => if p.1 = k then (k, v) else p)
  else d ++ [(k, v)]

/-- Python `d.update(other)`: assign every pair of `other` into `d` in order. -/
def dictUpdate {α : Type} (d other : List (Str × α)) : List (Str × α) :=
  other.foldl (fun acc p => dictInsert acc p.1 p.2) d

/-! ## Error taxonomy (`core/exceptions.py`) and built-in Python errors -/

/-- Exceptions that the modelled code can raise: the built-in `IOError`
re-raised by `RatesStorage` (`storage.py` lines 30 and 42), the project's
`ApiRequestError` (`core/exceptions.py`), and the built-in `ValueError`
raised by tuple unpacking in `create_historical_record`.  Each constructor
carries `str(e)` of the raised exception. -/
inductive PyError where
  | ioError (msg : Str)
  | apiRequestError (msg : Str)
  | valueError (msg : Str)
deriving DecidableEq

/-- Python class name of a raised exception. -/
def PyError.className : PyError → Str
  | .ioError _ => "IOError".toList
  | .apiRequestError _ => "ApiRequestError".toList
  | .valueError _ => "ValueError".toList

/-- The exception classes declared by the project's taxonomy in
`core/exceptions.py`: `ValutaTradeError` and its five subclasses.  There is
no `StorageError` class anywhere in the repository. -/
def taxonomyExceptionClasses : List Str :=
  ["ValutaTradeError".toList, "InsufficientFundsError".toList,
   "CurrencyNotFoundError".toList, "ApiRequestError".toList,
   "UserNotFoundError".toList, "AuthenticationError".toList]

/-! ## Data model (`storage.py`, `updater.py`) -/

/-- The `meta` mapping attached to a historical record by
`RatesUpdater.run_update` (`updater.py` lines 56-61). -/
structure RecordMeta where
  raw_id : Str
  status_code : Nat
  request_timestamp : Str
deriving DecidableEq

/-- A historical record as built by `RatesStorage.create_historical_record`
(`storage.py` lines 64-80). -/
structure HistRecord where
  id : Str
  from_currency : Str
  to_currency : Str
  rate : Rat
  timestamp : Str
  source : Str
  meta : RecordMeta
deriving DecidableEq

/-- One pair entry of the current-rates snapshot
(`updater.py` lines 95-99). -/
structure PairEntry where
  rate : Rat
  updated_at : Str
  source : Str
deriving DecidableEq

/-- The `rates_data` dict written to `data/rates.json`
(`updater.py` lines 88-91). -/
structure RatesData where
  pairs : List (Str × PairEntry)
  last_refresh : Str
deriving DecidableEq

/-- JSON values, the level at which `json.dump`/`json.load` round-trip the
snapshot file. -/
inductive JVal where
  | null
  | bool (b : Bool)
  | num (q : Rat)
  | str (s : Str)
  | arr (elems : List JVal)
  | obj (fields : List (Str × JVal))

/-- JSON encoding of one snapshot pair entry, as `json.dump` serialises the
inner dict of `rates_data["pairs"]`. -/
def PairEntry.toJson (e : PairEntry) : JVal :=
  .obj [("rate".toList, .num e.rate), ("updated_at".toList, .str e.updated_at),
        ("source".toList, .str e.source)]

/-- JSON encoding of the whole `rates_data` dict. -/
def RatesData.toJson (d : RatesData) : JVal :=
  .obj [("pairs".toList, .obj (d.pairs.map (fun pe => (pe.1, PairEntry.toJson pe.2)))),
        ("last_refresh".toList, .str d.last_refresh)]

/-- How a consumer reads `loaded["pairs"][pair]["rate"]` out of the parsed
snapshot JSON (cf. `get_exchange_rates` in `core/utils.py`). -/
def jsonLookupPairRate (j : JVal) (P : Str) : Option Rat :=
  match j with
  | .obj fields =>
    match lookupD fields ("pairs".toList) with
    | some (.obj pf) =>
      match lookupD pf P with
      | some (.obj ef) =>
        match lookupD ef ("rate".toList) with
        | some (.num r) => some r
        | _ => none
      | _ => none
    | _ => none
  | _ => none

/-! ## Rate store (`storage.py`)

The two canonical files are modelled by their parsed contents (`none` when
the file does not exist).  Both save operations take an `ioFailure`
injection standing for an `IOError`/`OSError` thrown by the underlying I/O
(`open`, `json.dump` or `os.replace`); because the source writes a temp file
and then atomically `os.replace`s it over the canonical path, a failed save
leaves the canonical file exactly as it was, which the model expresses by
returning only the error. -/

structure StorageState where
  ratesFile : Option JVal
  historyFile : Option (List HistRecord)

/-- A process that has never written either file. -/
def emptyStorage : StorageState := ⟨none, none⟩

/-- `RatesStorage.save_current_rates` (`storage.py` lines 22-30): dump the
snapshot to a temp file and `os.replace` it over `rates.json`; on an I/O
failure re-raise `IOError("Failed to save rates: ...")`. -/
def saveCurrentRates (ioFailure : Option Str) (d : RatesData) (st : StorageState) :
    Except PyError StorageState :=
  match ioFailure with
  | some e => .error (.ioError ("Failed to save rates: ".toList ++ e))
  | none => .ok { st with ratesFile := some d.toJson }

/-- `RatesStorage.load_current_rates` (`storage.py` lines 54-62): the parsed
file contents, or the empty dict `{}` when the file is absent (or
unparseable). -/
def loadCurrentRates (st : StorageState) : JVal :=
  match st.ratesFile with
  | none => .obj []
  | some j => j

/-- `RatesStorage.load_historical_records` (`storage.py` lines 44-52): the
parsed list, or `[]` when the file is absent (or unparseable). -/
def loadHistoricalRecords (st : StorageState) : List HistRecord :=
  st.historyFile.getD []

/-- `RatesStorage.save_historical_record` (`storage.py` lines 32-42): load
the full existing list, append the new record, rewrite the whole list to a
temp file and `os.replace` it; on an I/O failure re-raise
`IOError("Failed to save historical record: ...")`. -/
def saveHistoricalRecord (ioFailure : Option Str) (r : HistRecord) (st : StorageState) :
    Except PyError StorageState :=
  match ioFailure with
  | some e => .error (.ioError ("Failed to save historical record: ".toList ++ e))
  | none => .ok { st with historyFile := some (loadHistoricalRecords st ++ [r]) }

/-- Driver for the append-only property: perform one failure-free
`save_historical_record` per record, in order. -/
def appendRecords (rs : List HistRecord) (st : StorageState) : StorageState :=
  rs.foldl (fun s r =>
    match saveHistoricalRecord none r s with
    | .ok s2 => s2
    | .error _ => s) st

/-- `RatesStorage.create_historical_record` (`storage.py` lines 64-80).
`histNow` stands for `datetime.now(timezone.utc).isoformat().replace('+00:00', 'Z')`;
`pair.split('_')` is unpacked into exactly two names, so any other shape
raises the built-in `ValueError` of tuple unpacking. -/
def createHistoricalRecord (histNow pair : Str) (rate : Rat) (source : Str)
    (meta : RecordMeta) : Except PyError HistRecord :=
  match pySplitU pair with
  | [from_currency, to_currency] =>
    .ok { id := from_currency ++ '_' :: (to_currency ++ '_' :: sanitizeTs histNow),
          from_currency := from_currency, to_currency := to_currency,
          rate := rate, timestamp := histNow, source := source, meta := meta }
  | parts =>
    .error (.valueError
      (if parts.length < 2 then "not enough values to unpack (expected 2, got 1)".toList
       else "too many values to unpack (expected 2)".toList))

/-! ## Configuration (`parser_service/config.py`) -/

/-- `ParserConfig.FIAT_CURRENCIES`. -/
def fiatCurrencies : List Str :=
  ["EUR".toList, "GBP".toList, "JPY".toList, "RUB".toList, "CNY".toList]

/-- `ParserConfig.CRYPTO_CURRENCIES`. -/
def cryptoCurrencies : List Str :=
  ["BTC".toList, "ETH".toList, "SOL".toList, "ADA".toList, "DOT".toList]

/-- `ParserConfig.CRYPTO_ID_MAP`. -/
def cryptoIdMap : List (Str × Str) :=
  [("BTC".toList, "bitcoin".toList), ("ETH".toList, "ethereum".toList),
   ("SOL".toList, "solana".toList), ("ADA".toList, "cardano".toList),
   ("DOT".toList, "polkadot".toList)]

/-! ## Fiat source client (`api_clients.py`, `ExchangeRateApiClient.fetch_rates`) -/

/-- One iteration of the loop in `ExchangeRateApiClient.fetch_rates`
(`api_clients.py` lines 75-78): `if currency in rates_data and currency !=
"USD": rates[f"{currency}_USD"] = 1.0 / float(rates_data[currency])`. -/
def erStep (conversion_rates : List (Str × Rat)) (rates : List (Str × Rat))
    (currency : Str) : List (Str × Rat) :=
  match lookupD conversion_rates currency with
  | some raw =>
    if currency ≠ "USD".toList then dictInsert rates (currency ++ "_USD".toList) (1 / raw)
    else rates
  | none => rates

/-- The response-to-mapping transformation of
`ExchangeRateApiClient.fetch_rates` (`api_clients.py` lines 73-79), applied
to the provider's parsed `conversion_rates` table. -/
def exchangeRateFetchRates (conversion_rates : List (Str × Rat)) : List (Str × Rat) :=
  fiatCurrencies.foldl (erStep conversion_rates) []

/-! ## Aggregator (`updater.py`, `RatesUpdater.run_update`) -/

/-- The run summary dict (`updater.py` lines 33-39). -/
structure UpdateStats where
  total_rates : Nat
  sources_updated : List Str
  sources_failed : List Str
  errors : List Str
  last_refresh : Option Str
deriving DecidableEq

/-- The initial `update_stats` value of one run. -/
def initStats : UpdateStats := ⟨0, [], [], [], none⟩

/-- Record one failed source (`update_stats["errors"].append(...)` followed
by `update_stats["sources_failed"].append(...)`). -/
def markFailed (stats : UpdateStats) (src msg : Str) : UpdateStats :=
  { stats with errors := stats.errors ++ [msg],
               sources_failed := stats.sources_failed ++ [src] }

/-- The keys of `RatesUpdater.self.clients` (`updater.py` lines 21-24). -/
def clientNames : List Str := ["coingecko".toList, "exchangerate".toList]

/-- `client_name = ("CoinGecko" if source_name == "coingecko" else
"ExchangeRate-API")` (`updater.py` lines 48-49). -/
def clientDisplayName (s : Str) : Str :=
  if s = "coingecko".toList then "CoinGecko".toList else "ExchangeRate-API".toList

/-- Behaviour of one `client.fetch_rates()` call as observed by `run_update`:
either it returns a mapping, or it raises (`ApiRequestError` when
`isApiError`, any other exception otherwise); `msg` stands for `str(e)`. -/
inductive FetchOutcome where
  | ok (rates : List (Str × Rat))
  | raised (isApiError : Bool) (msg : Str)
deriving DecidableEq

/-- The `meta` dict built per pair (`updater.py` lines 56-61): `raw_id` is
`CRYPTO_ID_MAP.get(pair.split('_')[0], "")`; `reqNow` stands for the
`datetime.now(timezone.utc).isoformat()` request timestamp. -/
def buildMeta (reqNow pair : Str) : RecordMeta :=
  { raw_id := (lookupD cryptoIdMap ((pySplitU pair).headD [])).getD [],
    status_code := 200, request_timestamp := reqNow }

/-- The per-pair historical persistence loop (`updater.py` lines 55-64):
build and save one historical record per fetched pair, in mapping order.  A
raised error (the `ValueError` of a malformed pair) aborts the loop; records
already saved stay saved, matching the per-rate persistence of the source. -/
def saveRecordsLoop (histNow reqNow client_name : Str) (st : StorageState) :
    List (Str × Rat) → StorageState × Option PyError
  | [] => (st, none)
  | (pair, rate) :: rest =>
    match createHistoricalRecord histNow pair rate client_name (buildMeta reqNow pair) with
    | .error e => (st, some e)
    | .ok record =>
      match saveHistoricalRecord none record st with
      | .ok st2 => saveRecordsLoop histNow reqNow client_name st2 rest
      | .error e => (st, some e)

/-- Mutable state threaded through the `for source_name in sources` loop of
`run_update`: the combined `all_rates` dict, the `update_stats` summary and
the storage. -/
structure RunAcc where
  all_rates : List (Str × Rat)
  stats : UpdateStats
  storage : StorageState

/-- Body of the `try`-block for one known source (`updater.py` lines 50-84),
dispatching on the observed `fetch_rates` behaviour.  All exceptions are
caught and folded into the summary: an `ApiRequestError` is reported as
`"Failed to fetch from {client}: ..."`, anything else (including an error
from the per-pair record loop) as `"Unexpected error from {client}: ..."`. -/
def processKnownSource (histNow reqNow : Str) (acc : RunAcc) (source_name : Str) :
    FetchOutcome → RunAcc
  | .ok rates =>
    if rates = [] then
      let msg := "No rates received from ".toList ++ clientDisplayName source_name
      { acc with stats := markFailed acc.stats source_name msg }
    else
      match saveRecordsLoop histNow reqNow (clientDisplayName source_name) acc.storage rates with
      | (st2, none) =>
        { all_rates := dictUpdate acc.all_rates rates,
          stats := { acc.stats with
            sources_updated := acc.stats.sources_updated ++ [source_name] },
          storage := st2 }
      | (st2, some e) =>
        let emsg :=
          match e with
          | .ioError m => m
          | .apiRequestError m => m
          | .valueError m => m
        let msg := "Unexpected error from ".toList ++ clientDisplayName source_name
          ++ ": ".toList ++ emsg
        { acc with storage := st2, stats := markFailed acc.stats source_name msg }
  | .raised isApiError msg =>
    let fullMsg := (if isApiError then "Failed to fetch from ".toList
      else "Unexpected error from ".toList)
      ++ clientDisplayName source_name ++ ": ".toList ++ msg
    { acc with stats := markFailed acc.stats source_name fullMsg }

/-- One iteration of the `for source_name in sources` loop
(`updater.py` lines 41-84): unknown sources are recorded as failed and
skipped, known sources are fetched and processed. -/
def processSource (fetch : Str → FetchOutcome) (histNow reqNow : Str)
    (acc : RunAcc) (source_name : Str) : RunAcc :=
  if source_name ∈ clientNames then
    processKnownSource histNow reqNow acc source_name (fetch source_name)
  else
    let msg := "Unknown source: ".toList ++ source_name
    { acc with stats := markFailed acc.stats source_name msg }

/-- Provider label inferred per pair when building the snapshot
(`updater.py` lines 93-94): crypto-set membership of the pair's base code
determines the label. -/
def pairSourceLabel (pair : Str) : Str :=
  if (pySplitU pair).headD [] ∈ cryptoCurrencies then "CoinGecko".toList
  else "ExchangeRate-API".toList

/-- One assignment of the snapshot-building loop (`updater.py` lines 92-99):
`rates_data["pairs"][pair] = {"rate": rate, "updated_at": current_time,
"source": source}`. -/
def brStep (nowSnap : Str) (ps : List (Str × PairEntry)) (pr : Str × Rat) :
    List (Str × PairEntry) :=
  dictInsert ps pr.1 ⟨pr.2, nowSnap, pairSourceLabel pr.1⟩

/-- The `rates_data` snapshot built when `all_rates` is non-empty
(`updater.py` lines 87-99): a fresh dict stamping every pair with the single
shared `current_time` (`nowSnap`). -/
def buildRatesData (nowSnap : Str) (all_rates : List (Str × Rat)) : RatesData :=
  { pairs := all_rates.foldl (brStep nowSnap) [],
    last_refresh := nowSnap }

/-- The accumulator after the source loop of `run_update`: fold
`processSource` over the requested sources (`sources = list(self.clients.keys())`
when `None` is passed), starting from empty `all_rates` and fresh stats. -/
def runUpdateAcc (fetch : Str → FetchOutcome) (histNow reqNow : Str)
    (st : StorageState) (sources : Option (List Str)) : RunAcc :=
  (sources.getD clientNames).foldl (processSource fetch histNow reqNow)
    ⟨[], initStats, st⟩

/-- `RatesUpdater.run_update` (`updater.py` lines 26-105).  `histNow`,
`reqNow` and `nowSnap` stand for the `datetime.now(timezone.utc)` strings
taken for historical ids, request metadata and the snapshot respectively;
storage I/O is failure-free here (I/O failure is modelled at the storage
layer).  After the source loop, a non-empty combined mapping is written
wholesale as a fresh snapshot and the summary is completed; an empty one
writes nothing. -/
def runUpdate (fetch : Str → FetchOutcome) (histNow reqNow nowSnap : Str)
    (st : StorageState) (sources : Option (List Str)) : UpdateStats × StorageState :=
  let acc := runUpdateAcc fetch histNow reqNow st sources
  if acc.all_rates = [] then (acc.stats, acc.storage)
  else
    match saveCurrentRates none (buildRatesData nowSnap acc.all_rates) acc.storage with
    | .ok st2 =>
      ({ acc.stats with total_rates := acc.all_rates.length,
                        last_refresh := some nowSnap }, st2)
    | .error _ => (acc.stats, acc.storage)

/-! ## Scheduler (`scheduler.py`, `RatesScheduler._scheduler_loop`) -/

/-- What one `self.updater.run_update()` call inside the scheduler loop does:
return a summary, or raise. -/
inductive RunOutcome where
  | ok (stats : UpdateStats)
  | raised (msg : Str)
deriving DecidableEq

/-- Observable actions of the scheduler's background loop. -/
inductive SchedAction where
  | invokeUpdate
  | waitFor (seconds : Nat)
deriving DecidableEq

/-- Trace semantics of `RatesScheduler._scheduler_loop`
(`scheduler.py` lines 44-59), driven by the successive behaviours of
`run_update` until the stop event is observed (= end of the outcome list).
Each iteration invokes the updater inside `try`; only the `except` branch
executes `self._stop_event.wait(interval_seconds)` — the wait statement sits
inside the exception handler in the source, so a successful cycle proceeds
immediately to the next one. -/
def schedulerLoop (interval_minutes : Nat) : List RunOutcome → List SchedAction
  | [] => []
  | .ok _ :: rest => .invokeUpdate :: schedulerLoop interval_minutes rest
  | .raised _ :: rest =>
    .invokeUpdate :: .waitFor (interval_minutes * 60) :: schedulerLoop interval_minutes rest

/-! ## Freshness evaluator (`core/utils.py`, `is_rate_fresh`) -/

/-- `is_rate_fresh` (`core/utils.py` lines 30-40).  `parse` abstracts
`datetime.fromisoformat` composed with the timezone-aware comparison against
`datetime.now().astimezone()`: it yields the parsed instant (as an integer
timestamp) exactly when the string parses to a timezone-aware datetime; both
the `ValueError` of a failed parse and the `TypeError` of comparing a naive
datetime to an aware one are caught by the source's `except (ValueError,
TypeError)` and collapse to `parse = none`, hence `False`.  `ttl` is the
`RATES_TTL_SECONDS` setting and `now` the current instant; freshness is the
strict comparison `now < parsed + ttl`. -/
def is_rate_fresh (parse : Str → Option Int) (now ttl : Int) (updated_at : Str) : Bool :=
  match parse (pyReplaceZ updated_at) with
  | some t => decide (now < t + ttl)
  | none => false

/-! ## Sample values and classifiers used by concrete instantiations -/

/-- Tests whether a call result is a raised built-in `ValueError`. -/
def isValueError : Except PyError HistRecord → Bool
  | .error (.valueError _) => true
  | _ => false

/-- A sample snapshot dict (empty pairs). -/
def rd0 : RatesData := ⟨[], "2024-01-01T00:00:00Z".toList⟩

/-- A sample snapshot pair entry with a positive rate. -/
def pairEntry0 : PairEntry := ⟨2, "2024-01-01T00:00:00Z".toList, "CoinGecko".toList⟩

/-- A sample one-pair snapshot dict. -/
def rd1 : RatesData := ⟨[("BTC_USD".toList, pairEntry0)], "2024-01-01T00:00:00Z".toList⟩

/-- A sample historical record. -/
def hr0 : HistRecord :=
  ⟨"BTC_USD_2024".toList, "BTC".toList, "USD".toList, 50000,
   "2024-01-01T00:00:00Z".toList, "CoinGecko".toList, ⟨"bitcoin".toList, 200, []⟩⟩

/-- A concrete parse function recognising exactly one aware ISO timestamp,
used to instantiate the freshness contract. -/
def parse0 : Str → Option Int := fun x =>
  if x = "2024-01-01T00:00:00+00:00".toList then some 100 else none

/-- A fetch behaviour where the crypto source returns one pair and any other
source is irrelevant. -/
def fetchBtcOnly : Str → FetchOutcome := fun _ =>
  .ok [("BTC_USD".toList, 50000)]

/-- A fetch behaviour where the crypto source succeeds with two pairs and the
fiat source raises an `ApiRequestError` with message `boom`. -/
def fetchMix : Str → FetchOutcome := fun s =>
  if s = "coingecko".toList then
    .ok [("BTC_USD".toList, 50000), ("ETH_USD".toList, 3000)]
  else .raised true "boom".toList

/-! ## Helper lemmas: split and dict reasoning -/

theorem pySplitU_no_sep (s : Str) (h : '_' ∉ s) : pySplitU s = [s] := by
  induction s with
  | nil => rfl
  | cons c rest ih =>
    have hc : c ≠ '_' := fun hc => h (hc ▸ List.mem_cons_self c rest)
    have hr : '_' ∉ rest := fun hm => h (List.mem_cons_of_mem c hm)
    simp only [pySplitU, if_neg hc, ih hr]

theorem pySplitU_append_sep (F T : Str) (h : '_' ∉ F) :
    pySplitU (F ++ '_' :: T) = F :: pySplitU T := by
  induction F with
  | nil => simp [pySplitU]
  | cons c rest ih =>
    have hc : c ≠ '_' := fun hc => h (hc ▸ List.mem_cons_self c rest)
    have hr : '_' ∉ rest := fun hm => h (List.mem_cons_of_mem c hm)
    simp only [List.cons_append, pySplitU, if_neg hc, List.append_eq]
    rw [ih hr]

theorem pySplitU_ne_nil (s : Str) : pySplitU s ≠ [] := by
  cases s with
  | nil => simp [pySplitU]
  | cons c rest =>
    simp only [pySplitU]
    by_cases hc : c = '_'
    · simp [hc]
    · rw [if_neg hc]
      rcases h : pySplitU rest with _ | ⟨p, ps⟩ <;> simp

theorem length_pySplitU (s : Str) : (pySplitU s).length = s.count '_' + 1 := by
  induction s with
  | nil => rfl
  | cons c rest ih =>
    by_cases hc : c = '_'
    · subst hc
      have hu : pySplitU ('_' :: rest) = [] :: pySplitU rest := by
        simp [pySplitU]
      rw [hu, List.length_cons, ih, List.count_cons]
      simp
    · have hne := pySplitU_ne_nil rest
      rcases h : pySplitU rest with _ | ⟨p, ps⟩
      · exact absurd h hne
      · have hu : pySplitU (c :: rest) = (c :: p) :: ps := by
          simp only [pySplitU, if_neg hc, h]
        rw [h] at ih
        rw [hu, List.count_cons]
        simp only [List.length_cons] at ih ⊢
        simp [hc, ih]

theorem lookupD_nil {α : Type} (k : Str) : lookupD ([] : List (Str × α)) k = none := rfl

theorem lookupD_cons {α : Type} (p : Str × α) (rest : List (Str × α)) (k : Str) :
    lookupD (p :: rest) k = if p.1 = k then some p.2 else lookupD rest k := by
  cases p
  rfl

theorem lookupD_map_value {α β : Type} (l : List (Str × α)) (f : α → β) (k : Str) :
    lookupD (l.map (fun p => (p.1, f p.2))) k = (lookupD l k).map f := by
  induction l with
  | nil => rfl
  | cons p rest ih =>
    simp only [List.map_cons, lookupD_cons]
    by_cases h : p.1 = k
    · simp [h]
    · simp [h, ih]

theorem any_key_eq_isSome {α : Type} (l : List (Str × α)) (k : Str) :
    l.any (fun p => p.1 = k) = (lookupD l k).isSome := by
  induction l with
  | nil => rfl
  | cons p rest ih =>
    simp only [List.any_cons, lookupD_cons]
    by_cases h : p.1 = k
    · simp [h]
    · simp [h, ih]

theorem lookupD_eq_none_iff {α : Type} (l : List (Str × α)) (k : Str) :
    lookupD l k = none ↔ k ∉ l.map Prod.fst := by
  induction l with
  | nil => simp [lookupD_nil]
  | cons p rest ih =>
    simp only [lookupD_cons, List.map_cons, List.mem_cons]
    by_cases h : p.1 = k
    · rw [if_pos h]
      constructor
      · intro hn
        exact Option.noConfusion hn
      · intro hn
        exact absurd (Or.inl h.symm) hn
    · simp only [if_neg h, ih]
      constructor
      · rintro hn (hk | hk)
        · exact h hk.symm
        · exact hn hk
      · intro hn
        exact fun hk => hn (Or.inr hk)

theorem lookupD_map_replace {α : Type} (l : List (Str × α)) (k : Str) (v : α) :
    lookupD (l.map (fun p => if p.1 = k then (k, v) else p)) k
      = (lookupD l k).map (fun _ => v) := by
  induction l with
  | nil => rfl
  | cons p rest ih =>
    simp only [List.map_cons, lookupD_cons]
    by_cases h : p.1 = k
    · simp [h]
    · simp [h, ih]

theorem lookupD_append_last {α : Type} (l : List (Str × α)) (k : Str) (v : α)
    (h : lookupD l k = none) : lookupD (l ++ [(k, v)]) k = some v := by
  induction l with
  | nil => simp [lookupD_cons, lookupD_nil]
  | cons p rest ih =>
    rw [lookupD_cons] at h
    by_cases hp : p.1 = k
    · rw [if_pos hp] at h
      exact absurd h (by simp)
    · rw [if_neg hp] at h
      rw [List.cons_append, lookupD_cons, if_neg hp]
      exact ih h

theorem dictInsert_lookup_self {α : Type} (l : List (Str × α)) (k : Str) (v : α) :
    lookupD (dictInsert l k v) k = some v := by
  unfold dictInsert
  by_cases h : l.any (fun p => p.1 = k) = true
  · rw [if_pos h, lookupD_map_replace]
    rw [any_key_eq_isSome] at h
    rcases ho : lookupD l k with _ | w
    · rw [ho] at h; simp at h
    · simp
  · rw [if_neg h]
    rw [any_key_eq_isSome] at h
    have hn : lookupD l k = none := by
      rcases ho : lookupD l k with _ | w
      · rfl
      · rw [ho] at h; simp at h
    exact lookupD_append_last l k v hn

theorem lookupD_append {α : Type} (l e : List (Str × α)) (k : Str) :
    lookupD (l ++ e) k = ((lookupD l k).or (lookupD e k)) := by
  induction l with
  | nil => simp [lookupD_nil]
  | cons p rest ih =>
    rw [List.cons_append, lookupD_cons, lookupD_cons]
    by_cases hp : p.1 = k
    · simp [hp]
    · simp [hp, ih]

theorem lookupD_map_replace_ne {α : Type} (l : List (Str × α)) (k' k : Str) (v : α)
    (h : k' ≠ k) :
    lookupD (l.map (fun p => if p.1 = k' then (k', v) else p)) k = lookupD l k := by
  induction l with
  | nil => rfl
  | cons p rest ih =>
    simp only [List.map_cons, lookupD_cons]
    by_cases hq : p.1 = k'
    · have hp : ¬ p.1 = k := fun hk => h (hq ▸ hk)
      simp [hq, hp, h, ih]
    · by_cases hp : p.1 = k
      · simp [hq, hp, Ne.symm h, ih]
      · simp [hq, hp, ih]

theorem dictInsert_lookup_ne {α : Type} (l : List (Str × α)) (k' k : Str) (v : α)
    (h : k' ≠ k) : lookupD (dictInsert l k' v) k = lookupD l k := by
  unfold dictInsert
  by_cases ha : l.any (fun p => p.1 = k') = true
  · rw [if_pos ha, lookupD_map_replace_ne l k' k v h]
  · rw [if_neg ha, lookupD_append]
    have hone : lookupD [(k', v)] k = none := by
      rw [lookupD_cons, if_neg (fun hk => h hk)]
      rfl
    rw [hone]
    cases lookupD l k <;> rfl


theorem pyReplaceZ_trailing (s : Str) (h : 'Z' ∉ s) :
    pyReplaceZ (s ++ ['Z']) = s ++ "+00:00".toList := by
  induction s with
  | nil => rfl
  | cons c rest ih =>
    have hc : c ≠ 'Z' := fun hc => h (hc ▸ List.mem_cons_self c rest)
    have hr : 'Z' ∉ rest := fun hm => h (List.mem_cons_of_mem c hm)
    simp only [List.cons_append, pyReplaceZ, if_neg hc, List.append_eq]
    rw [ih hr]

theorem append_suffix_inj (a b s : Str) (h : a ++ s = b ++ s) : a = b :=
  (List.append_inj' h rfl).1

theorem dictInsert_not_mem {α : Type} (l : List (Str × α)) (k : Str) (v : α)
    (h : k ∉ l.map Prod.fst) : dictInsert l k v = l ++ [(k, v)] := by
  have hn : lookupD l k = none := (lookupD_eq_none_iff l k).mpr h
  have hfalse : (l.any (fun p => p.1 = k)) = false := by
    rw [any_key_eq_isSome, hn]
    rfl
  unfold dictInsert
  rw [hfalse]
  simp

theorem dictUpdate_of_disjoint {α : Type} (m : List (Str × α)) :
    ∀ acc : List (Str × α), (m.map Prod.fst).Nodup →
      (∀ p ∈ m, p.1 ∉ acc.map Prod.fst) → dictUpdate acc m = acc ++ m := by
  induction m with
  | nil => intro acc _ _; simp [dictUpdate]
  | cons p rest ih =>
    intro acc hnd hdis
    have h1 : dictInsert acc p.1 p.2 = acc ++ [(p.1, p.2)] :=
      dictInsert_not_mem acc p.1 p.2 (hdis p (List.mem_cons_self p rest))
    have hnd' : (rest.map Prod.fst).Nodup := by
      rw [List.map_cons] at hnd
      exact (List.nodup_cons.mp hnd).2
    have hhead : p.1 ∉ rest.map Prod.fst := by
      rw [List.map_cons] at hnd
      exact (List.nodup_cons.mp hnd).1
    have hdis' : ∀ q ∈ rest, q.1 ∉ (acc ++ [(p.1, p.2)]).map Prod.fst := by
      intro q hq
      rw [List.map_append, List.mem_append]
      rintro (hm | hm)
      · exact hdis q (List.mem_cons_of_mem p hq) hm
      · simp only [List.map_cons, List.map_nil, List.mem_singleton] at hm
        exact hhead (hm ▸ List.mem_map.mpr ⟨q, hq, rfl⟩)
    have hstep : dictUpdate acc (p :: rest) = dictUpdate (acc ++ [(p.1, p.2)]) rest := by
      unfold dictUpdate
      rw [List.foldl_cons, h1]
    rw [hstep, ih (acc ++ [(p.1, p.2)]) hnd' hdis']
    simp

theorem dictUpdate_nil_left {α : Type} (m : List (Str × α))
    (hnd : (m.map Prod.fst).Nodup) : dictUpdate [] m = m := by
  have h := dictUpdate_of_disjoint m [] hnd (by simp)
  simpa using h

theorem mem_dictInsert {α : Type} (l : List (Str × α)) (k : Str) (v : α) (pe : Str × α)
    (h : pe ∈ dictInsert l k v) : pe = (k, v) ∨ pe ∈ l := by
  unfold dictInsert at h
  by_cases ha : l.any (fun p => p.1 = k) = true
  · rw [if_pos ha] at h
    obtain ⟨q, hq, hfq⟩ := List.mem_map.mp h
    by_cases hk : q.1 = k
    · rw [if_pos hk] at hfq
      exact Or.inl hfq.symm
    · rw [if_neg hk] at hfq
      exact Or.inr (hfq ▸ hq)
  · rw [if_neg ha] at h
    rcases List.mem_append.mp h with h1 | h1
    · exact Or.inr h1
    · exact Or.inl (List.mem_singleton.mp h1)

theorem load_appendRecords (rs : List HistRecord) (st : StorageState) :
    loadHistoricalRecords (appendRecords rs st) = loadHistoricalRecords st ++ rs := by
  induction rs generalizing st with
  | nil => simp [appendRecords]
  | cons r rest ih =>
    have hstep : appendRecords (r :: rest) st
        = appendRecords rest { st with historyFile := some (loadHistoricalRecords st ++ [r]) } :=
      rfl
    rw [hstep, ih]
    simp [loadHistoricalRecords]

theorem erFold_notmem (fiat : List Str) (table : List (Str × Rat)) :
    ∀ acc : List (Str × Rat), ∀ X : Str, X ∉ fiat →
      lookupD (fiat.foldl (erStep table) acc) (X ++ "_USD".toList)
        = lookupD acc (X ++ "_USD".toList) := by
  induction fiat with
  | nil => intro acc X _; rfl
  | cons c rest ih =>
    intro acc X hX
    have hcX : c ≠ X := fun hc => hX (hc ▸ List.mem_cons_self c rest)
    have hrX : X ∉ rest := fun hm => hX (List.mem_cons_of_mem c hm)
    rw [List.foldl_cons, ih _ X hrX]
    unfold erStep
    rcases hl : lookupD table c with _ | raw
    · rfl
    · dsimp only
      by_cases hu : c ≠ "USD".toList
      · rw [if_pos hu]
        exact dictInsert_lookup_ne acc _ _ _
          (fun hk => hcX (append_suffix_inj c X ("_USD".toList) hk))
      · rw [if_neg hu]

theorem erFold_mem (fiat : List Str) (table : List (Str × Rat)) :
    ∀ acc : List (Str × Rat), ∀ X : Str, ∀ r : Rat,
      X ∈ fiat → fiat.Nodup → X ≠ "USD".toList → lookupD table X = some r →
      lookupD acc (X ++ "_USD".toList) = none →
      lookupD (fiat.foldl (erStep table) acc) (X ++ "_USD".toList) = some (1 / r) := by
  induction fiat with
  | nil => intro acc X r hmem _ _ _ _; exact absurd hmem (List.not_mem_nil X)
  | cons c rest ih =>
    intro acc X r hmem hnd hXU htab hacc
    rw [List.foldl_cons]
    rcases List.mem_cons.mp hmem with hXc | hXr
    · subst hXc
      have hXnr : X ∉ rest := (List.nodup_cons.mp hnd).1
      rw [erFold_notmem rest table _ X hXnr]
      unfold erStep
      rw [htab]
      dsimp only
      rw [if_pos hXU]
      exact dictInsert_lookup_self acc _ _
    · have hnd' : rest.Nodup := (List.nodup_cons.mp hnd).2
      have hcnr : c ∉ rest := (List.nodup_cons.mp hnd).1
      have hcX : c ≠ X := fun hc => hcnr (hc ▸ hXr)
      apply ih _ X r hXr hnd' hXU htab
      unfold erStep
      rcases hl : lookupD table c with _ | raw
      · exact hacc
      · dsimp only
        by_cases hu : c ≠ "USD".toList
        · rw [if_pos hu]
          rw [dictInsert_lookup_ne acc _ _ _
            (fun hk => hcX (append_suffix_inj c X ("_USD".toList) hk))]
          exact hacc
        · rw [if_neg hu]
          exact hacc

theorem brFold_updated_at (nowSnap : Str) (rs : List (Str × Rat)) :
    ∀ ps : List (Str × PairEntry), (∀ pe ∈ ps, pe.2.updated_at = nowSnap) →
      ∀ pe ∈ rs.foldl (brStep nowSnap) ps, pe.2.updated_at = nowSnap := by
  induction rs with
  | nil => intro ps hps; exact hps
  | cons pr rest ih =>
    intro ps hps
    rw [List.foldl_cons]
    apply ih
    intro pe hpe
    rcases mem_dictInsert ps pr.1 _ pe hpe with h1 | h1
    · rw [h1]
    · exact hps pe h1

theorem brFold_lookup_notmem (nowSnap : Str) (rs : List (Str × Rat)) :
    ∀ ps : List (Str × PairEntry), ∀ P : Str, P ∉ rs.map Prod.fst →
      lookupD (rs.foldl (brStep nowSnap) ps) P = lookupD ps P := by
  induction rs with
  | nil => intro ps P _; rfl
  | cons pr rest ih =>
    intro ps P h
    have hP1 : pr.1 ≠ P := by
      intro he
      exact h (by rw [List.map_cons, he]; exact List.mem_cons_self P _)
    have hPr : P ∉ rest.map Prod.fst := fun hm =>
      h (by rw [List.map_cons]; exact List.mem_cons_of_mem _ hm)
    rw [List.foldl_cons, ih _ P hPr]
    exact dictInsert_lookup_ne ps pr.1 P _ hP1

theorem saveRecordsLoop_ok (histNow reqNow client : Str) :
    ∀ (rates : List (Str × Rat)), (∀ p ∈ rates, (pySplitU p.1).length = 2) →
      ∀ st : StorageState,
        ∃ st2, saveRecordsLoop histNow reqNow client st rates = (st2, none) := by
  intro rates
  induction rates with
  | nil => intro _ st; exact ⟨st, rfl⟩
  | cons pr rest ih =>
    intro hwf st
    have hwf' : ∀ p ∈ rest, (pySplitU p.1).length = 2 :=
      fun p hp => hwf p (List.mem_cons_of_mem pr hp)
    obtain ⟨f, t, hft⟩ := List.length_eq_two.mp (hwf pr (List.mem_cons_self pr rest))
    obtain ⟨pair, rate⟩ := pr
    simp only at hft
    rcases hc : createHistoricalRecord histNow pair rate client (buildMeta reqNow pair)
      with e | recd
    · exfalso
      simp only [createHistoricalRecord, hft] at hc
      exact Except.noConfusion hc
    · obtain ⟨st2, h2⟩ :=
        ih hwf' { st with historyFile := some (loadHistoricalRecords st ++ [recd]) }
      refine ⟨st2, ?_⟩
      simp only [saveRecordsLoop, hc, saveHistoricalRecord]
      exact h2

theorem processSource_raised (fetch : Str → FetchOutcome) (histNow reqNow : Str)
    (acc : RunAcc) (s : Str) (b : Bool) (msg : Str)
    (hmem : s ∈ clientNames) (hf : fetch s = .raised b msg) :
    processSource fetch histNow reqNow acc s
      = ⟨acc.all_rates,
         markFailed acc.stats s
           ((if b then "Failed to fetch from ".toList else "Unexpected error from ".toList)
             ++ clientDisplayName s ++ ": ".toList ++ msg),
         acc.storage⟩ := by
  unfold processSource
  rw [if_pos hmem, hf]
  rfl

theorem processSource_ok (fetch : Str → FetchOutcome) (histNow reqNow : Str)
    (acc : RunAcc) (s : Str) (m : List (Str × Rat))
    (hmem : s ∈ clientNames) (hf : fetch s = .ok m) (hm : m ≠ [])
    (hwf : ∀ p ∈ m, (pySplitU p.1).length = 2) :
    ∃ st2, processSource fetch histNow reqNow acc s
      = ⟨dictUpdate acc.all_rates m,
         { acc.stats with sources_updated := acc.stats.sources_updated ++ [s] },
         st2⟩ := by
  obtain ⟨st2, hloop⟩ :=
    saveRecordsLoop_ok histNow reqNow (clientDisplayName s) m hwf acc.storage
  refine ⟨st2, ?_⟩
  unfold processSource
  rw [if_pos hmem, hf]
  unfold processKnownSource
  dsimp only
  rw [if_neg hm, hloop]

theorem runLoop_all_fail (fetch : Str → FetchOutcome) (histNow reqNow : Str)
    (st0 : StorageState) :
    ∀ srcs : List Str,
      (∀ s ∈ srcs, s ∉ clientNames ∨ (∃ b msg, fetch s = .raised b msg) ∨ fetch s = .ok []) →
      ∀ stats : UpdateStats, ∃ stats' : UpdateStats,
        srcs.foldl (processSource fetch histNow reqNow) ⟨[], stats, st0⟩ = ⟨[], stats', st0⟩
        ∧ stats'.total_rates = stats.total_rates
        ∧ stats'.last_refresh = stats.last_refresh := by
  intro srcs
  induction srcs with
  | nil => intro _ stats; exact ⟨stats, rfl, rfl, rfl⟩
  | cons s rest ih =>
    intro h stats
    have hs := h s (List.mem_cons_self s rest)
    have hrest := fun s' hs' => h s' (List.mem_cons_of_mem s hs')
    have hstep : ∃ stats2 : UpdateStats,
        processSource fetch histNow reqNow ⟨[], stats, st0⟩ s = ⟨[], stats2, st0⟩
        ∧ stats2.total_rates = stats.total_rates
        ∧ stats2.last_refresh = stats.last_refresh := by
      by_cases hmem : s ∈ clientNames
      · rcases hs with hmem' | ⟨b, msg, hf⟩ | hf
        · exact absurd hmem hmem'
        · refine ⟨markFailed stats s
            ((if b then "Failed to fetch from ".toList else "Unexpected error from ".toList)
              ++ clientDisplayName s ++ ": ".toList ++ msg), ?_, rfl, rfl⟩
          unfold processSource
          rw [if_pos hmem, hf]
          rfl
        · refine ⟨markFailed stats s
            ("No rates received from ".toList ++ clientDisplayName s), ?_, rfl, rfl⟩
          unfold processSource
          rw [if_pos hmem, hf]
          rfl
      · refine ⟨markFailed stats s ("Unknown source: ".toList ++ s), ?_, rfl, rfl⟩
        unfold processSource
        rw [if_neg hmem]
    obtain ⟨stats2, hstep2, ht2, hl2⟩ := hstep
    obtain ⟨stats', hfold, ht', hl'⟩ := ih hrest stats2
    refine ⟨stats', ?_, ?_, ?_⟩
    · rw [List.foldl_cons, hstep2, hfold]
    · rw [ht', ht2]
    · rw [hl', hl2]

/-! ## Claim theorems -/

/-- C1: the claim states that the scheduler's background loop waits
`interval_minutes * 60` seconds between consecutive Aggregator invocations
regardless of whether the invocation succeeded or raised.  The code violates
this: `self._stop_event.wait(interval_seconds)` sits inside the `except`
block of `_scheduler_loop` (`scheduler.py` line 59), so two consecutive
successful cycles produce two `run_update` invocations with no wait between
them — the loop busy-spins on success. -/
theorem scheduler_loop_no_wait_between_successful_cycles :
    schedulerLoop 5 [RunOutcome.ok initStats, RunOutcome.ok initStats]
      = [SchedAction.invokeUpdate, SchedAction.invokeUpdate]
    ∧ schedulerLoop 5 [RunOutcome.raised "boom".toList, RunOutcome.ok initStats]
      = [SchedAction.invokeUpdate, SchedAction.waitFor 300, SchedAction.invokeUpdate] :=
  ⟨rfl, rfl⟩

/-- C8: starting from an empty historical store, appending records r1..rN one
at a time yields `load_historical_records()` returning exactly [r1, ..., rN]
(length N, insertion order); and an (N+1)-th append that hits an I/O failure
raises without disturbing the already-persisted records, because the write
goes to a temp file that is only ever `os.replace`d on success. -/
theorem historical_append_order_and_atomicity (rs : List HistRecord) (e : Str)
    (r : HistRecord) :
    loadHistoricalRecords (appendRecords rs emptyStorage) = rs
    ∧ (loadHistoricalRecords (appendRecords rs emptyStorage)).length = rs.length
    ∧ saveHistoricalRecord (some e) r (appendRecords rs emptyStorage)
        = .error (.ioError ("Failed to save historical record: ".toList ++ e)) := by
  have h1 : loadHistoricalRecords (appendRecords rs emptyStorage) = rs := by
    rw [load_appendRecords]
    rfl
  exact ⟨h1, by rw [h1], rfl⟩

/-- C8 witness: one concrete record appended to the empty store, then a
failing second append. -/
theorem historical_append_order_and_atomicity_witness :
    loadHistoricalRecords (appendRecords [hr0] emptyStorage) = [hr0]
    ∧ (loadHistoricalRecords (appendRecords [hr0] emptyStorage)).length = 1
    ∧ saveHistoricalRecord (some "disk full".toList) hr0 (appendRecords [hr0] emptyStorage)
        = .error (.ioError ("Failed to save historical record: ".toList
            ++ "disk full".toList)) :=
  historical_append_order_and_atomicity [hr0] ("disk full".toList) hr0

/-- C9 counterexample: the claim states that a failing
`save_current_rates` raises a `StorageError` belonging to the project's
exception taxonomy.  In fact the code raises the built-in `IOError`
(`storage.py` line 30), whose class is not among the classes declared in
`core/exceptions.py`, and no `StorageError` class exists in that taxonomy at
all. -/
theorem storage_error_not_in_taxonomy :
    saveCurrentRates (some "disk full".toList) rd0 emptyStorage
      = .error (.ioError ("Failed to save rates: disk full".toList))
    ∧ (PyError.ioError ("Failed to save rates: disk full".toList)).className
        ∉ taxonomyExceptionClasses
    ∧ "StorageError".toList ∉ taxonomyExceptionClasses := by
  refine ⟨?_, ?_, ?_⟩
  · rfl
  · decide
  · decide

/-- C9 amended: when the underlying I/O operation fails,
`save_current_rates` and `save_historical_record` raise the built-in
`IOError` wrapping the underlying failure message (prefixed
`Failed to save rates: ` resp. `Failed to save historical record: `); this
error is distinguishable from `ApiRequestError` by class but is not a class
of the project's exception taxonomy — no `StorageError` exists. -/
theorem storage_failure_raises_builtin_ioerror (e : Str) (d : RatesData)
    (r : HistRecord) (st : StorageState) :
    saveCurrentRates (some e) d st
      = .error (.ioError ("Failed to save rates: ".toList ++ e))
    ∧ saveHistoricalRecord (some e) r st
        = .error (.ioError ("Failed to save historical record: ".toList ++ e))
    ∧ (PyError.ioError ("Failed to save rates: ".toList ++ e)).className
        = "IOError".toList :=
  ⟨rfl, rfl, rfl⟩

/-- C10: `create_historical_record` assumes its pair argument has exactly one
underscore: for `"{FROM}_{TO}"` it returns the record with
`from_currency = FROM`, `to_currency = TO` and
`id = "{FROM}_{TO}_{timestamp}"` with `:` and `.` replaced by `-`; for any
pair whose underscore count differs from one, the two-name tuple unpacking
of `pair.split('_')` raises an uncaught `ValueError`, so under the two-part
precondition that branch is unreachable. -/
theorem create_historical_record_split_contract (F T histNow : Str) (r : Rat)
    (src : Str) (meta : RecordMeta) (hF : '_' ∉ F) (hT : '_' ∉ T) :
    createHistoricalRecord histNow (F ++ '_' :: T) r src meta
      = .ok { id := F ++ '_' :: (T ++ '_' :: sanitizeTs histNow),
              from_currency := F, to_currency := T, rate := r,
              timestamp := histNow, source := src, meta := meta }
    ∧ ∀ pair : Str, pair.count '_' ≠ 1 →
        isValueError (createHistoricalRecord histNow pair r src meta) = true := by
  constructor
  · have hsplit : pySplitU (F ++ '_' :: T) = [F, T] := by
      rw [pySplitU_append_sep F T hF, pySplitU_no_sep T hT]
    simp [createHistoricalRecord, hsplit]
  · intro pair hcnt
    have hlen : (pySplitU pair).length ≠ 2 := by
      rw [length_pySplitU]
      omega
    rcases h : pySplitU pair with _ | ⟨a, _ | ⟨b, _ | ⟨c, parts⟩⟩⟩
    · exact absurd h (pySplitU_ne_nil pair)
    · simp [createHistoricalRecord, h, isValueError]
    · rw [h] at hlen
      simp at hlen
    · simp [createHistoricalRecord, h, isValueError]

/-- C10 witness: the two-part pair `BTC_USD` builds the expected record, and
the zero-underscore pair `BTCUSD` raises a `ValueError`. -/
theorem create_historical_record_split_contract_witness :
    ('_' ∉ "BTC".toList) ∧ ('_' ∉ "USD".toList)
    ∧ createHistoricalRecord ("2024-01-01T00:00:00.5Z".toList)
        ("BTC".toList ++ '_' :: "USD".toList) 50000 ("CoinGecko".toList)
        ⟨"bitcoin".toList, 200, []⟩
      = .ok { id := "BTC".toList ++ '_' :: ("USD".toList
                ++ '_' :: sanitizeTs ("2024-01-01T00:00:00.5Z".toList)),
              from_currency := "BTC".toList, to_currency := "USD".toList,
              rate := 50000, timestamp := "2024-01-01T00:00:00.5Z".toList,
              source := "CoinGecko".toList, meta := ⟨"bitcoin".toList, 200, []⟩ }
    ∧ (("BTCUSD".toList : Str).count '_' ≠ 1)
    ∧ isValueError (createHistoricalRecord ("2024-01-01T00:00:00.5Z".toList)
        ("BTCUSD".toList) 50000 ("CoinGecko".toList) ⟨"bitcoin".toList, 200, []⟩)
        = true := by
  have h := create_historical_record_split_contract ("BTC".toList) ("USD".toList)
    ("2024-01-01T00:00:00.5Z".toList) 50000 ("CoinGecko".toList)
    ⟨"bitcoin".toList, 200, []⟩ (by decide) (by decide)
  exact ⟨by decide, by decide, h.1, by decide, h.2 ("BTCUSD".toList) (by decide)⟩

/-- C5: the freshness evaluator returns true iff the current instant is
strictly before `observed_at + ttl_seconds` when `observed_at` parses (after
the trailing `'Z'` UTC designator is rewritten to `+00:00`), and returns
`false` — it never raises, being a total Boolean function — for any input
whose parse fails; a trailing `'Z'` on an otherwise `Z`-free timestamp is
rewritten to the explicit UTC offset before parsing. -/
theorem is_rate_fresh_spec (parse : Str → Option Int) (now ttl t : Int)
    (s s2 : Str) :
    (parse (pyReplaceZ s) = some t →
      (is_rate_fresh parse now ttl s = true ↔ now < t + ttl))
    ∧ (parse (pyReplaceZ s) = none → is_rate_fresh parse now ttl s = false)
    ∧ ('Z' ∉ s2 → pyReplaceZ (s2 ++ ['Z']) = s2 ++ "+00:00".toList) := by
  refine ⟨?_, ?_, ?_⟩
  · intro hp
    simp [is_rate_fresh, hp]
  · intro hp
    simp [is_rate_fresh, hp]
  · intro hz
    exact pyReplaceZ_trailing s2 hz

/-- C5 witness: a parseable `Z`-suffixed timestamp evaluated within and
beyond its TTL, and an unparseable string evaluating to false. -/
theorem is_rate_fresh_spec_witness :
    parse0 (pyReplaceZ ("2024-01-01T00:00:00Z".toList)) = some 100
    ∧ is_rate_fresh parse0 120 50 ("2024-01-01T00:00:00Z".toList) = true
    ∧ is_rate_fresh parse0 200 50 ("2024-01-01T00:00:00Z".toList) = false
    ∧ parse0 (pyReplaceZ ("not-a-timestamp".toList)) = none
    ∧ is_rate_fresh parse0 120 50 ("not-a-timestamp".toList) = false
    ∧ pyReplaceZ ("2024".toList ++ ['Z']) = "2024".toList ++ "+00:00".toList := by
  have h1 := is_rate_fresh_spec parse0 120 50 100 ("2024-01-01T00:00:00Z".toList) ("2024".toList)
  have h2 := is_rate_fresh_spec parse0 200 50 100 ("2024-01-01T00:00:00Z".toList) ("2024".toList)
  have h3 := is_rate_fresh_spec parse0 120 50 100 ("not-a-timestamp".toList) ("2024".toList)
  refine ⟨by decide, ?_, ?_, by decide, h3.2.1 (by decide), h1.2.2 (by decide)⟩
  · exact (h1.1 (by decide)).mpr (by decide)
  · have hiff := h2.1 (by decide)
    rcases hb : is_rate_fresh parse0 200 50 ("2024-01-01T00:00:00Z".toList) with _ | _
    · rfl
    · exact absurd (hiff.mp hb) (by decide)

/-- C6: for every fiat currency X of the configured set other than USD that
is present in the provider's USD-based conversion table with raw rate r, the
fiat client's mapping sends `X_USD` to `1 / r`; and the base currency USD is
never emitted (no `USD_USD` key exists for any table). -/
theorem exchangeRate_inverts_usd_rates (table : List (Str × Rat)) (X : Str) (r : Rat)
    (hmem : X ∈ fiatCurrencies) (hXU : X ≠ "USD".toList)
    (htab : lookupD table X = some r) :
    lookupD (exchangeRateFetchRates table) (X ++ "_USD".toList) = some (1 / r)
    ∧ ∀ table2 : List (Str × Rat),
        lookupD (exchangeRateFetchRates table2) ("USD_USD".toList) = none := by
  constructor
  · exact erFold_mem fiatCurrencies table [] X r hmem (by decide) hXU htab rfl
  · intro table2
    have husd : ("USD_USD".toList : Str) = "USD".toList ++ "_USD".toList := by decide
    rw [husd]
    unfold exchangeRateFetchRates
    rw [erFold_notmem fiatCurrencies table2 [] ("USD".toList) (by decide)]
    rfl

/-- C6 witness: a table with raw `USD->EUR = 0.91` yields the stored pair
`EUR_USD = 1/0.91`, and no `USD_USD` pair. -/
theorem exchangeRate_inverts_usd_rates_witness :
    ("EUR".toList ∈ fiatCurrencies)
    ∧ ("EUR".toList ≠ "USD".toList)
    ∧ lookupD [("EUR".toList, (91 : Rat)/100)] ("EUR".toList) = some ((91 : Rat)/100)
    ∧ lookupD (exchangeRateFetchRates [("EUR".toList, (91 : Rat)/100)])
        ("EUR".toList ++ "_USD".toList) = some (1 / ((91 : Rat)/100))
    ∧ lookupD (exchangeRateFetchRates [("EUR".toList, (91 : Rat)/100)])
        ("USD_USD".toList) = none := by
  have h := exchangeRate_inverts_usd_rates [("EUR".toList, (91 : Rat)/100)]
    ("EUR".toList) ((91 : Rat)/100) (by decide) (by decide) (by rfl)
  exact ⟨by decide, by decide, by rfl, h.1, h.2 [("EUR".toList, (91 : Rat)/100)]⟩

/-- C7: for every snapshot containing a pair P with (positive) rate R,
`save_current_rates` followed by `load_current_rates` yields a parsed JSON
object in which P still maps to R unchanged. -/
theorem save_load_roundtrip (d : RatesData) (st : StorageState) (P : Str)
    (en : PairEntry) (h : lookupD d.pairs P = some en) (_hpos : 0 < en.rate) :
    ∃ st2, saveCurrentRates none d st = .ok st2
      ∧ jsonLookupPairRate (loadCurrentRates st2) P = some en.rate := by
  refine ⟨{ st with ratesFile := some d.toJson }, rfl, ?_⟩
  show jsonLookupPairRate d.toJson P = some en.rate
  have hmap : lookupD (d.pairs.map (fun pe => (pe.1, PairEntry.toJson pe.2))) P
      = some en.toJson := by
    rw [lookupD_map_value d.pairs PairEntry.toJson P, h]
    rfl
  have h1 : jsonLookupPairRate d.toJson P
      = (match lookupD (d.pairs.map (fun pe => (pe.1, PairEntry.toJson pe.2))) P with
         | some (.obj ef) =>
           (match lookupD ef ("rate".toList) with
            | some (.num r2) => some r2
            | _ => none)
         | _ => none) := rfl
  rw [h1, hmap]
  rfl

/-- C7 witness: a one-pair snapshot round-trips through save and load. -/
theorem save_load_roundtrip_witness :
    lookupD rd1.pairs ("BTC_USD".toList) = some pairEntry0
    ∧ 0 < pairEntry0.rate
    ∧ ∃ st2, saveCurrentRates none rd1 emptyStorage = .ok st2
        ∧ jsonLookupPairRate (loadCurrentRates st2) ("BTC_USD".toList)
            = some pairEntry0.rate := by
  exact ⟨by rfl, by decide,
    save_load_roundtrip rd1 emptyStorage ("BTC_USD".toList) pairEntry0 (by rfl) (by decide)⟩

/-- C2: with one requested source raising (an `ApiRequestError` when the
flag is true, any unexpected error otherwise) and the other succeeding with
a non-empty well-formed mapping, `run_update` returns normally (it is a
total function here: every per-source exception is caught by the loop) with
the failing source in `sources_failed`, its human-readable message appended
to `errors`, the succeeding source in `sources_updated`, and `total_rates`
equal to the number of rates the succeeding source returned — in either
request order, so a failure never aborts processing of remaining sources. -/
theorem runUpdate_partial_failure_isolated (fetch : Str → FetchOutcome)
    (histNow reqNow nowSnap : Str) (st : StorageState) (sA sB : Str)
    (m : List (Str × Rat)) (b : Bool) (emsg : Str) (srcs : List Str)
    (hAmem : sA ∈ clientNames) (hBmem : sB ∈ clientNames)
    (hA : fetch sA = .ok m) (hB : fetch sB = .raised b emsg)
    (hm : m ≠ []) (hnd : (m.map Prod.fst).Nodup)
    (hwf : ∀ p ∈ m, (pySplitU p.1).length = 2)
    (hsrcs : srcs = [sB, sA] ∨ srcs = [sA, sB]) :
    (runUpdate fetch histNow reqNow nowSnap st (some srcs)).1
      = ⟨m.length, [sA], [sB],
         [(if b then "Failed to fetch from ".toList else "Unexpected error from ".toList)
            ++ clientDisplayName sB ++ ": ".toList ++ emsg], some nowSnap⟩ := by
  have hupd : dictUpdate ([] : List (Str × Rat)) m = m := dictUpdate_nil_left m hnd
  rcases hsrcs with rfl | rfl
  · have hstep1 := processSource_raised fetch histNow reqNow ⟨[], initStats, st⟩ sB b emsg
      hBmem hB
    obtain ⟨st2, hstep2⟩ := processSource_ok fetch histNow reqNow
      ⟨[], markFailed initStats sB
        ((if b then "Failed to fetch from ".toList else "Unexpected error from ".toList)
          ++ clientDisplayName sB ++ ": ".toList ++ emsg), st⟩ sA m hAmem hA hm hwf
    have hacc : runUpdateAcc fetch histNow reqNow st (some [sB, sA])
        = ⟨m, ⟨0, [sA], [sB],
            [(if b then "Failed to fetch from ".toList else "Unexpected error from ".toList)
               ++ clientDisplayName sB ++ ": ".toList ++ emsg], none⟩, st2⟩ := by
      unfold runUpdateAcc
      dsimp only [Option.getD]
      rw [List.foldl_cons, List.foldl_cons, List.foldl_nil, hstep1]
      dsimp only
      rw [hstep2]
      dsimp only
      rw [hupd]
      simp [markFailed, initStats]
    have hrun : (runUpdate fetch histNow reqNow nowSnap st (some [sB, sA])).1
        = { (⟨0, [sA], [sB],
              [(if b then "Failed to fetch from ".toList else "Unexpected error from ".toList)
                 ++ clientDisplayName sB ++ ": ".toList ++ emsg], none⟩ : UpdateStats) with
            total_rates := m.length, last_refresh := some nowSnap } := by
      simp only [runUpdate, hacc]
      rw [if_neg hm]
      rfl
    rw [hrun]
  · obtain ⟨st2, hstep1⟩ := processSource_ok fetch histNow reqNow
      ⟨[], initStats, st⟩ sA m hAmem hA hm hwf
    have hstep2 := processSource_raised fetch histNow reqNow
      ⟨dictUpdate [] m, { initStats with sources_updated := initStats.sources_updated ++ [sA] },
       st2⟩ sB b emsg hBmem hB
    have hacc : runUpdateAcc fetch histNow reqNow st (some [sA, sB])
        = ⟨m, ⟨0, [sA], [sB],
            [(if b then "Failed to fetch from ".toList else "Unexpected error from ".toList)
               ++ clientDisplayName sB ++ ": ".toList ++ emsg], none⟩, st2⟩ := by
      unfold runUpdateAcc
      dsimp only [Option.getD]
      rw [List.foldl_cons, List.foldl_cons, List.foldl_nil, hstep1]
      dsimp only
      rw [hstep2]
      dsimp only
      rw [hupd]
      simp [markFailed, initStats]
    have hrun : (runUpdate fetch histNow reqNow nowSnap st (some [sA, sB])).1
        = { (⟨0, [sA], [sB],
              [(if b then "Failed to fetch from ".toList else "Unexpected error from ".toList)
                 ++ clientDisplayName sB ++ ": ".toList ++ emsg], none⟩ : UpdateStats) with
            total_rates := m.length, last_refresh := some nowSnap } := by
      simp only [runUpdate, hacc]
      rw [if_neg hm]
      rfl
    rw [hrun]

/-- C2 witness: the fiat source raises first, the crypto source succeeds
with two pairs afterwards; the summary isolates the failure. -/
theorem runUpdate_partial_failure_isolated_witness :
    fetchMix ("coingecko".toList)
      = .ok [("BTC_USD".toList, 50000), ("ETH_USD".toList, 3000)]
    ∧ fetchMix ("exchangerate".toList) = .raised true ("boom".toList)
    ∧ (runUpdate fetchMix ("h".toList) ("q".toList) ("n".toList) emptyStorage
        (some ["exchangerate".toList, "coingecko".toList])).1
      = ⟨2, ["coingecko".toList], ["exchangerate".toList],
         ["Failed to fetch from ExchangeRate-API: boom".toList], some ("n".toList)⟩ := by
  have h := runUpdate_partial_failure_isolated fetchMix ("h".toList) ("q".toList)
    ("n".toList) emptyStorage ("coingecko".toList) ("exchangerate".toList)
    [("BTC_USD".toList, 50000), ("ETH_USD".toList, 3000)] true ("boom".toList)
    ["exchangerate".toList, "coingecko".toList]
    (by decide) (by decide) (by rfl) (by rfl) (by decide) (by decide) (by decide)
    (Or.inl rfl)
  refine ⟨rfl, rfl, ?_⟩
  rw [h]
  rfl

/-- C3: when every requested source is unknown, raises, or returns an empty
mapping — so the combined mapping is empty — `run_update` performs no write
to the snapshot file (its prior contents are preserved exactly) and the
returned summary has `total_rates = 0` and `last_refresh = None`. -/
theorem runUpdate_empty_leaves_snapshot_untouched (fetch : Str → FetchOutcome)
    (histNow reqNow nowSnap : Str) (st : StorageState) (srcs : List Str)
    (h : ∀ s ∈ srcs,
      s ∉ clientNames ∨ (∃ b msg, fetch s = .raised b msg) ∨ fetch s = .ok []) :
    (runUpdate fetch histNow reqNow nowSnap st (some srcs)).2.ratesFile = st.ratesFile
    ∧ (runUpdate fetch histNow reqNow nowSnap st (some srcs)).1.total_rates = 0
    ∧ (runUpdate fetch histNow reqNow nowSnap st (some srcs)).1.last_refresh = none := by
  obtain ⟨stats', hfold, ht, hl⟩ := runLoop_all_fail fetch histNow reqNow st srcs h initStats
  have hacc : runUpdateAcc fetch histNow reqNow st (some srcs) = ⟨[], stats', st⟩ := by
    unfold runUpdateAcc
    exact hfold
  have hrun : runUpdate fetch histNow reqNow nowSnap st (some srcs) = (stats', st) := by
    simp only [runUpdate, hacc, if_true]
  rw [hrun]
  exact ⟨rfl, ht, hl⟩

/-- C3 witness: the fiat source raises and the second requested name is
unknown; the snapshot file of a fresh store stays absent and the summary
reports zero rates. -/
theorem runUpdate_empty_leaves_snapshot_untouched_witness :
    (runUpdate fetchMix ("h".toList) ("q".toList) ("n".toList) emptyStorage
        (some ["exchangerate".toList, "bogus".toList])).2.ratesFile
      = emptyStorage.ratesFile
    ∧ (runUpdate fetchMix ("h".toList) ("q".toList) ("n".toList) emptyStorage
        (some ["exchangerate".toList, "bogus".toList])).1.total_rates = 0
    ∧ (runUpdate fetchMix ("h".toList) ("q".toList) ("n".toList) emptyStorage
        (some ["exchangerate".toList, "bogus".toList])).1.last_refresh = none := by
  have hcond : ∀ s ∈ (["exchangerate".toList, "bogus".toList] : List Str),
      s ∉ clientNames ∨ (∃ b msg, fetchMix s = .raised b msg) ∨ fetchMix s = .ok [] := by
    intro s hs
    rcases List.mem_cons.mp hs with rfl | hs2
    · exact Or.inr (Or.inl ⟨true, "boom".toList, rfl⟩)
    · rcases List.mem_cons.mp hs2 with rfl | hs3
      · exact Or.inl (by decide)
      · exact absurd hs3 (List.not_mem_nil s)
  exact runUpdate_empty_leaves_snapshot_untouched fetchMix ("h".toList) ("q".toList)
    ("n".toList) emptyStorage ["exchangerate".toList, "bogus".toList] hcond

/-- C4: whenever `run_update` writes a snapshot (the combined mapping is
non-empty), the file receives exactly the freshly built `rates_data` — a
wholesale replacement, independent of the previous snapshot contents — in
which every pair's `updated_at` equals the snapshot's `last_refresh` (the
single shared `current_time`), and any pair absent from this run's combined
mapping is absent from the new snapshot. -/
theorem runUpdate_snapshot_single_timestamp_wholesale (fetch : Str → FetchOutcome)
    (histNow reqNow nowSnap : Str) (st : StorageState) (sources : Option (List Str))
    (hne : (runUpdateAcc fetch histNow reqNow st sources).all_rates ≠ []) :
    (runUpdate fetch histNow reqNow nowSnap st sources).2.ratesFile
      = some (RatesData.toJson (buildRatesData nowSnap
          (runUpdateAcc fetch histNow reqNow st sources).all_rates))
    ∧ (∀ pe ∈ (buildRatesData nowSnap
          (runUpdateAcc fetch histNow reqNow st sources).all_rates).pairs,
        pe.2.updated_at
          = (buildRatesData nowSnap
              (runUpdateAcc fetch histNow reqNow st sources).all_rates).last_refresh)
    ∧ (∀ P : Str,
        P ∉ (runUpdateAcc fetch histNow reqNow st sources).all_rates.map Prod.fst →
        lookupD (buildRatesData nowSnap
          (runUpdateAcc fetch histNow reqNow st sources).all_rates).pairs P = none) := by
  refine ⟨?_, ?_, ?_⟩
  · have hrun : (runUpdate fetch histNow reqNow nowSnap st sources).2
        = { (runUpdateAcc fetch histNow reqNow st sources).storage with
            ratesFile := some (RatesData.toJson (buildRatesData nowSnap
              (runUpdateAcc fetch histNow reqNow st sources).all_rates)) } := by
      simp only [runUpdate]
      rw [if_neg hne]
      rfl
    rw [hrun]
  · intro pe hpe
    exact brFold_updated_at nowSnap
      ((runUpdateAcc fetch histNow reqNow st sources).all_rates) []
      (fun pe2 h2 => absurd h2 (List.not_mem_nil pe2)) pe hpe
  · intro P hP
    have hb := brFold_lookup_notmem nowSnap
      ((runUpdateAcc fetch histNow reqNow st sources).all_rates) [] P hP
    exact hb

/-- C4 witness: a single successful crypto fetch writes a snapshot whose
encoded form is exactly the freshly built one, and a pair not fetched in
this run (`XRP_USD`) is absent from it. -/
theorem runUpdate_snapshot_single_timestamp_wholesale_witness :
    (runUpdateAcc fetchBtcOnly ("h".toList) ("q".toList) emptyStorage
        (some ["coingecko".toList])).all_rates ≠ []
    ∧ (runUpdate fetchBtcOnly ("h".toList) ("q".toList) ("n".toList) emptyStorage
        (some ["coingecko".toList])).2.ratesFile
      = some (RatesData.toJson (buildRatesData ("n".toList)
          (runUpdateAcc fetchBtcOnly ("h".toList) ("q".toList) emptyStorage
            (some ["coingecko".toList])).all_rates))
    ∧ lookupD (buildRatesData ("n".toList)
        (runUpdateAcc fetchBtcOnly ("h".toList) ("q".toList) emptyStorage
          (some ["coingecko".toList])).all_rates).pairs ("XRP_USD".toList) = none := by
  have h := runUpdate_snapshot_single_timestamp_wholesale fetchBtcOnly ("h".toList)
    ("q".toList) ("n".toList) emptyStorage (some ["coingecko".toList]) (by decide)
  exact ⟨by decide, h.1, h.2.2 ("XRP_USD".toList) (by decide)⟩
